import Mathlib

/-!
Verification of the driver-analyzer parsing and reporting core.

The definitions below are a shallow embedding of `src/driver_analyzer.py`:
Python strings become `String` (reasoned about through their `List Char`
data), Python `str.strip` / `str.split` / `str.lower` / `str.replace`
become the explicit character-list functions below, Python dicts used as
driver records become association lists with Python-dict insertion
semantics, and the file side effect of `generate_report` is modelled as a
`ReportWrite` value carrying the target path and the full text written.
-/

/-- Python `str.strip()` on the character list of a string: drop whitespace
from both ends. -/
def trimChars (cs : List Char) : List Char :=
  ((cs.dropWhile Char.isWhitespace).reverse.dropWhile Char.isWhitespace).reverse

/-- Python `s.split(sep)` for a one-character separator `sep`: left-to-right
splitting, keeping empty pieces, never returning an empty list. -/
def splitCh (sep : Char) : List Char → List (List Char)
  | [] => [[]]
  | c :: rest =>
    if c = sep then [] :: splitCh sep rest
    else
      match splitCh sep rest with
      | t :: ts => (c :: t) :: ts
      | [] => [[c]]

/-- Python `s.split("\n\n")`: greedy left-to-right splitting on the
two-character separator used for blank-line-delimited blocks. -/
def splitNN : List Char → List (List Char)
  | [] => [[]]
  | [c] => [[c]]
  | c1 :: c2 :: rest =>
    if c1 = '\n' ∧ c2 = '\n' then [] :: splitNN rest
    else
      match splitNN (c2 :: rest) with
      | t :: ts => (c1 :: t) :: ts
      | [] => [[c1]]

/-- Python `s.split(sep, 1)` combined with the `sep in s` test: `none` when
the separator does not occur, otherwise the pieces before and after the
first occurrence. -/
def splitFirst (sep : Char) : List Char → Option (List Char × List Char)
  | [] => none
  | c :: rest =>
    if c = sep then some ([], rest)
    else
      match splitFirst sep rest with
      | none => none
      | some (k, v) => some (c :: k, v)

/-- Python `str.lower()` on ASCII text. -/
def pyLower (s : String) : String :=
  String.mk (s.data.map Char.toLower)

/-- A parsed driver record: a Python dict from field names to string
values, embedded as an association list in insertion order. -/
abbrev DriverRecord := List (String × String)

/-- Python dict assignment `d[k] = v`: overwrite the value in place when the
key is present, append the new binding otherwise. -/
def dictInsert (d : DriverRecord) (k v : String) : DriverRecord :=
  if d.any (fun p => p.1 = k) then
    d.map (fun p => if p.1 = k then (k, v) else p)
  else d ++ [(k, v)]

/-- Python `d.get(k)`: the value bound to `k`, if any. -/
def dictGet (d : DriverRecord) (k : String) : Option String :=
  (d.find? (fun p => p.1 = k)).map Prod.snd

/-- The static Spanish-to-canonical header lookup `header_map` of
`parse_driver_v_output`, as the total function `dict.get(key, key)`. -/
def header_map (k : String) : String :=
  if k = "Nombre de módulo" then "ModuleName"
  else if k = "Module Name" then "ModuleName"
  else if k = "Nombre a mostrar" then "DisplayName"
  else if k = "Display Name" then "DisplayName"
  else if k = "Descripción del controlador" then "Description"
  else if k = "Driver Description" then "Description"
  else if k = "Tipo de controlador" then "Driver Type"
  else if k = "Tipo" then "Driver Type"
  else if k = "Estado" then "State"
  else if k = "PnP Device ID" then "PnPDeviceID"
  else k

/-- The body of the line loop of `parse_driver_v_output`: a line with a
colon is split at its first colon, both sides are stripped, the key is
normalized through `header_map`, and the binding is written into the
record; a line without a colon leaves the record unchanged. -/
def processLine (driver : DriverRecord) (line : List Char) : DriverRecord :=
  match splitFirst ':' line with
  | none => driver
  | some (k, v) =>
      dictInsert driver (header_map (String.mk (trimChars k))) (String.mk (trimChars v))

/-- One iteration of the record loop of `parse_driver_v_output`: strip the
block, split it into lines, and fold the line loop over them. -/
def parseBlock (record : List Char) : DriverRecord :=
  (splitCh '\n' (trimChars record)).foldl processLine []

/-- The `if driver: drivers.append(driver)` step of
`parse_driver_v_output`: an empty record is dropped. -/
def blockToRecord (record : List Char) : Option DriverRecord :=
  let driver := parseBlock record
  if driver = [] then none else some driver

/-- Embedding of `parse_driver_v_output`: empty output short-circuits to an
empty list, otherwise the stripped output is split into blank-line-separated
blocks and each block yielding at least one field becomes a record. -/
def parse_driver_v_output (output : String) : List DriverRecord :=
  if output = "" then []
  else (splitNN (trimChars output.data)).filterMap blockToRecord

/-- Python `list.index` for string lists (only used on lists that contain
the element). -/
def pyIndexOf (x : String) : List String → Nat
  | [] => 0
  | y :: ys => if y = x then 0 else pyIndexOf x ys + 1

/-- Field clean-up `p.strip().replace(chr(34), two-q-empty)` of
`parse_signed_driver_output`: strip whitespace first, then remove every
double-quote character. -/
def cleanField (p : List Char) : String :=
  String.mk ((trimChars p).filter (fun c => c ≠ '"'))

/-- Header resolution of `parse_signed_driver_output`: an exact match for
the English or Spanish label wins, otherwise fall back to column 1 when the
header has more than one column, and give up (empty result) otherwise. -/
def resolveSignedIndex (header : List String) : Option Nat :=
  if header.contains "IsSigned" then some (pyIndexOf "IsSigned" header)
  else if header.contains "Está firmado" then some (pyIndexOf "Está firmado" header)
  else if 1 < header.length then some 1
  else none

/-- The data-row loop body of `parse_signed_driver_output`: skip blank
rows, clean every field, require the signed-status column to exist, and
emit the first field when the lower-cased status is the token false. -/
def rowExtract (i : Nat) (line : List Char) : Option String :=
  if trimChars line = [] then none
  else
    match ((splitCh ',' line).map cleanField)[i]? with
    | none => none
    | some status =>
        if pyLower status = "false" then ((splitCh ',' line).map cleanField)[0]? else none

/-- Embedding of `parse_signed_driver_output`: empty output or fewer than
two lines give an empty result; otherwise the header is cleaned and
resolved and every later row is run through `rowExtract`. -/
def parse_signed_driver_output (output : String) : List String :=
  if output = "" then []
  else
    match splitCh '\n' (trimChars output.data) with
    | l0 :: l1 :: rest =>
      match resolveSignedIndex ((splitCh ',' l0).map cleanField) with
      | none => []
      | some i => (l1 :: rest).filterMap (rowExtract i)
    | _ => []

/-- The cleaned first field of every data row of the tabular input, in
source order; used to state that the unsigned-name result is an
order-preserving selection from the source rows. -/
def source_row_names (output : String) : List String :=
  if output = "" then []
  else
    match splitCh '\n' (trimChars output.data) with
    | _ :: l1 :: rest =>
        (l1 :: rest).map (fun line => cleanField ((splitCh ',' line).headD []))
    | _ => []

/-- The data rows (every stripped-input line after the header) that
`parse_signed_driver_output` iterates over; mirrors its decomposition. -/
def signed_data_rows (output : String) : List (List Char) :=
  if output = "" then []
  else
    match splitCh '\n' (trimChars output.data) with
    | _ :: l1 :: rest => l1 :: rest
    | _ => []

/-- The signed-status column index `parse_signed_driver_output` resolves
for its input, `none` when the parser gives up before reaching the rows;
mirrors its decomposition. -/
def signed_status_index (output : String) : Option Nat :=
  if output = "" then none
  else
    match splitCh '\n' (trimChars output.data) with
    | l0 :: _ :: _ => resolveSignedIndex ((splitCh ',' l0).map cleanField)
    | _ => none

/-- The stopped-driver filter of `main`:
`[d for d in all_drivers if d.get(s-State, empty).lower() == s-stopped]`. -/
def stopped_drivers (all_drivers : List DriverRecord) : List DriverRecord :=
  all_drivers.filter (fun d => pyLower ((dictGet d "State").getD "") = "stopped")

/-- The fixed relative path `report.txt` hardcoded in `generate_report`. -/
def report_path : String := "report.txt"

/-- The stopped-drivers section of the report, with `N/A` for missing
fields, exactly as written by `generate_report`. -/
def stoppedSection (stopped : List DriverRecord) : String :=
  if stopped = [] then "--- Stopped Drivers ---\nNo stopped drivers found.\n\n"
  else
    "--- Stopped Drivers ---\n" ++
      String.join (stopped.map (fun driver =>
        "  - Name: " ++ ((dictGet driver "ModuleName").getD "N/A") ++
        "\n    Display Name: " ++ ((dictGet driver "DisplayName").getD "N/A") ++
        "\n    PnP Device ID: " ++ ((dictGet driver "PnPDeviceID").getD "N/A") ++ "\n\n"))

/-- The unsigned-drivers section of the report, exactly as written by
`generate_report`. -/
def unsignedSection (unsigned : List String) : String :=
  if unsigned = [] then "--- Unsigned Drivers ---\nNo unsigned drivers found.\n\n"
  else
    "--- Unsigned Drivers ---\n" ++
      String.join (unsigned.map (fun n => "  - " ++ n ++ "\n")) ++ "\n"

/-- Everything `generate_report` writes after the timestamp. -/
def reportTail (stopped : List DriverRecord) (unsigned : List String) : String :=
  "\n\n--- Summary ---\nFound " ++
  (toString stopped.length ++
  (" stopped drivers.\nFound " ++
  (toString unsigned.length ++
  (" unsigned drivers.\nNote: Not all stopped or unsigned drivers indicate a problem. This report is for informational purposes.\n\n" ++
  (stoppedSection stopped ++
  (unsignedSection unsigned ++
  "--- Recommendations ---\n1. Check Windows Update for the latest official drivers.\n2. For specific hardware (e.g., graphics cards), visit the manufacturer\x27s official website (NVIDIA, AMD, Intel).\n3. Do NOT download drivers from third-party websites.\n"))))))

/-- The full report text written by `generate_report`, with the
`datetime.now()` timestamp passed in as a parameter. -/
def generate_report_content (stopped : List DriverRecord) (unsigned : List String)
    (now : String) : String :=
  "Driver Analysis Report\n======================\nGenerated on: " ++
    (now ++ reportTail stopped unsigned)

/-- The file write performed by `generate_report`: target path and full
content. -/
structure ReportWrite where
  path : String
  content : String

/-- Embedding of `generate_report`: open `report.txt` for writing and write
the report text. -/
def generate_report (stopped : List DriverRecord) (unsigned : List String)
    (now : String) : ReportWrite :=
  { path := report_path, content := generate_report_content stopped unsigned now }

/-- A block contributes a record exactly when one of its stripped lines
carries a colon; this is the block-counting notion of the spec. -/
def hasColonLine (record : List Char) : Bool :=
  (splitCh '\n' (trimChars record)).any (fun l => l.contains ':')

/-- A list of `n` newline characters, for stating blank-line robustness. -/
def nlRep (n : Nat) : List Char := List.replicate n '\n'

/-! ## Helper lemmas about the embedded primitives -/

lemma dictInsert_ne_nil (d : DriverRecord) (k v : String) : dictInsert d k v ≠ [] := by
  unfold dictInsert
  by_cases h : d.any (fun p => p.1 = k)
  · rw [if_pos h]
    intro hd
    rcases d with _ | ⟨p, d'⟩
    · simp at h
    · simp at hd
  · rw [if_neg h]
    simp

lemma dictGet_dictInsert_same (d : DriverRecord) (k v : String) :
    dictGet (dictInsert d k v) k = some v := by
  unfold dictGet dictInsert
  by_cases h : d.any (fun p => p.1 = k)
  · rw [if_pos h]
    induction d with
    | nil => simp at h
    | cons p d' ih =>
      by_cases hp : p.1 = k
      · simp [List.find?, hp]
      · have h' : d'.any (fun p => p.1 = k) = true := by
          simp only [List.any_cons, Bool.or_eq_true, decide_eq_true_eq] at h
          rcases h with h | h
          · exact absurd h hp
          · exact h
        simpa [List.find?, hp] using ih h'
  · rw [if_neg h]
    induction d with
    | nil => simp [List.find?]
    | cons p d' ih =>
      have hp : ¬ (p.1 = k) := by
        intro hk
        exact h (by simp [hk])
      have h' : ¬ (d'.any (fun p => p.1 = k) = true) := by
        intro ha
        exact h (by simp [ha])
      simpa [List.find?, hp] using ih h'

lemma splitFirst_isSome (sep : Char) (l : List Char) :
    (splitFirst sep l).isSome = l.contains sep := by
  induction l with
  | nil => simp [splitFirst]
  | cons c rest ih =>
    by_cases hc : c = sep
    · simp [splitFirst, hc]
    · cases hrec : splitFirst sep rest with
      | none =>
        rw [hrec] at ih
        have hnr : ¬ sep ∈ rest := by
          intro h
          have := ih.symm
          rw [List.contains] at this; simp [List.elem_iff, h] at this
        simp [splitFirst, hc, hrec, List.contains_cons]
        exact ⟨fun h => hc h.symm, hnr⟩
      | some kv =>
        rw [hrec] at ih
        have hr : sep ∈ rest := by
          have := ih.symm
          simpa [List.elem_iff] using this
        simp [splitFirst, hc, hrec, List.contains_cons]
        exact Or.inr hr

lemma splitFirst_eq_some (sep : Char) (l k v : List Char)
    (h : splitFirst sep l = some (k, v)) : k ++ sep :: v = l ∧ sep ∉ k := by
  induction l generalizing k v with
  | nil => simp [splitFirst] at h
  | cons c rest ih =>
    by_cases hc : c = sep
    · simp only [splitFirst, if_pos hc, Option.some_inj] at h
      obtain ⟨hk, hv⟩ := Prod.mk.injEq .. ▸ h
      subst hc
      simp [← hk, ← hv]
    · cases hrec : splitFirst sep rest with
      | none => simp [splitFirst, hc, hrec] at h
      | some kv =>
        obtain ⟨k', v'⟩ := kv
        simp only [splitFirst, if_neg hc, hrec, Option.some_inj] at h
        obtain ⟨hk, hv⟩ := Prod.mk.injEq .. ▸ h
        obtain ⟨ih1, ih2⟩ := ih k' v' hrec
        subst hv
        constructor
        · rw [← hk]
          simpa using congrArg (c :: ·) ih1
        · rw [← hk]
          intro hmem
          rcases List.mem_cons.mp hmem with h1 | h1
          · exact hc h1.symm
          · exact ih2 h1

lemma splitCh_ne_nil (sep : Char) (cs : List Char) : splitCh sep cs ≠ [] := by
  cases cs with
  | nil => simp [splitCh]
  | cons c rest =>
    by_cases h : c = sep
    · simp [splitCh, h]
    · simp only [splitCh, if_neg h]
      cases splitCh sep rest <;> simp

lemma splitNN_ne_nil (cs : List Char) : splitNN cs ≠ [] := by
  match cs with
  | [] => simp [splitNN]
  | [c] => simp [splitNN]
  | c1 :: c2 :: rest =>
    by_cases h : c1 = '\n' ∧ c2 = '\n'
    · simp [splitNN, h]
    · simp only [splitNN, if_neg h]
      cases splitNN (c2 :: rest) <;> simp

lemma foldl_processLine_eq_nil_iff (ls : List (List Char)) (d : DriverRecord) :
    ls.foldl processLine d = [] ↔ (d = [] ∧ ∀ l ∈ ls, splitFirst ':' l = none) := by
  induction ls generalizing d with
  | nil => simp
  | cons l ls ih =>
    rw [List.foldl_cons, ih]
    cases hl : splitFirst ':' l with
    | none =>
      have hpl : processLine d l = d := by simp [processLine, hl]
      rw [hpl]
      constructor
      · rintro ⟨h1, h2⟩
        exact ⟨h1, fun l' hl' => by
          rcases List.mem_cons.mp hl' with h | h
          · subst h; exact hl
          · exact h2 l' h⟩
      · rintro ⟨h1, h2⟩
        exact ⟨h1, fun l' hl' => h2 l' (List.mem_cons_of_mem _ hl')⟩
    | some kv =>
      obtain ⟨k, v⟩ := kv
      have hpl : processLine d l = dictInsert d (header_map (String.mk (trimChars k)))
          (String.mk (trimChars v)) := by simp [processLine, hl]
      rw [hpl]
      constructor
      · rintro ⟨h1, -⟩
        exact absurd h1 (dictInsert_ne_nil _ _ _)
      · rintro ⟨-, h2⟩
        have := h2 l (List.mem_cons_self ..)
        rw [hl] at this
        cases this

lemma parseBlock_eq_nil_iff (b : List Char) :
    parseBlock b = [] ↔ ∀ l ∈ splitCh '\n' (trimChars b), splitFirst ':' l = none := by
  unfold parseBlock
  rw [foldl_processLine_eq_nil_iff]
  simp

lemma blockToRecord_isSome (b : List Char) :
    (blockToRecord b).isSome = hasColonLine b := by
  unfold blockToRecord hasColonLine
  by_cases h : parseBlock b = []
  · rw [if_pos h]
    have h' := (parseBlock_eq_nil_iff b).mp h
    simp only [Option.isSome_none]
    symm
    rw [List.any_eq_false]
    intro l hl
    have := h' l hl
    have hs := splitFirst_isSome ':' l
    rw [this] at hs
    simpa using hs.symm
  · rw [if_neg h]
    have h' := h
    rw [parseBlock_eq_nil_iff] at h'
    push_neg at h'
    obtain ⟨l, hl, hne⟩ := h'
    simp only [Option.isSome_some]
    symm
    rw [List.any_eq_true]
    refine ⟨l, hl, ?_⟩
    have hs := splitFirst_isSome ':' l
    cases hsf : splitFirst ':' l with
    | none => exact absurd hsf hne
    | some kv => rw [hsf] at hs; simpa using hs.symm

lemma length_filterMap_eq_length_filter {α β : Type} (f : α → Option β) (l : List α) :
    (l.filterMap f).length = (l.filter (fun x => (f x).isSome)).length := by
  induction l with
  | nil => rfl
  | cons x l ih => cases hx : f x <;> simp [List.filterMap_cons, hx, ih]

lemma filterMap_sublist_map {α β : Type} (f : α → Option β) (g : α → β) (l : List α)
    (h : ∀ x y, f x = some y → y = g x) :
    (l.filterMap f).Sublist (l.map g) := by
  induction l with
  | nil => simp
  | cons x l ih =>
    cases hx : f x with
    | none =>
      rw [List.filterMap_cons, hx, List.map_cons]
      exact ih.cons _
    | some y =>
      rw [List.filterMap_cons, hx, h x y hx, List.map_cons]
      exact ih.cons₂ _

lemma rowExtract_eq_some_name (i : Nat) (line : List Char) (d : String)
    (h : rowExtract i line = some d) : d = cleanField ((splitCh ',' line).headD []) := by
  unfold rowExtract at h
  by_cases ht : trimChars line = []
  · simp [ht] at h
  · rw [if_neg ht] at h
    cases hsp : splitCh ',' line with
    | nil => exact absurd hsp (splitCh_ne_nil _ _)
    | cons x xs =>
      simp only [hsp, List.getElem?_map] at h
      cases hg : (x :: xs)[i]? with
      | none => simp [hg] at h
      | some part =>
        simp only [hg, Option.map_some'] at h
        by_cases hs : pyLower (cleanField part) = "false"
        · rw [if_pos hs] at h
          simp only [List.getElem?_cons_zero, Option.map_some', Option.some_inj] at h
          simp [← h]
        · rw [if_neg hs] at h
          cases h

/-! ## Claim theorems -/

/-- C1: the stopped filter of `main` selects exactly the parsed records
whose `State` field, lower-cased, equals the token stopped; membership in
the result is equivalent to membership in the input together with a
`State` binding whose lower-case value is stopped, so records without a
`State` field are excluded without error. -/
theorem c1_stopped_filter_exact (all_drivers : List DriverRecord) (d : DriverRecord) :
    d ∈ stopped_drivers all_drivers ↔
      d ∈ all_drivers ∧ ∃ v, dictGet d "State" = some v ∧ pyLower v = "stopped" := by
  unfold stopped_drivers
  rw [List.mem_filter]
  apply and_congr_right
  intro _
  cases hv : dictGet d "State" with
  | none =>
    simp only [hv, Option.getD_none, decide_eq_true_eq]
    constructor
    · intro h
      exact absurd h (by decide)
    · rintro ⟨v, hvv, -⟩
      cases hvv
  | some v =>
    simp only [hv, Option.getD_some, decide_eq_true_eq]
    constructor
    · intro h
      exact ⟨v, rfl, h⟩
    · rintro ⟨v', hv', h⟩
      cases hv'
      exact h

/-- C1 witness: a record with `State: Stopped` is selected from a concrete
parsed list. -/
theorem c1_witness :
    [("State", "Stopped")] ∈ stopped_drivers [[("State", "Stopped")], [("State", "Running")]] ∧
    dictGet [("State", "Stopped")] "State" = some "Stopped" :=
  ⟨(c1_stopped_filter_exact _ _).mpr ⟨by decide, "Stopped", by decide, by decide⟩, by decide⟩

lemma count_filterMap {α : Type} (f : α → Option String) (l : List α) (d : String) :
    (l.filterMap f).count d = (l.filter (fun x => f x = some d)).length := by
  induction l with
  | nil => rfl
  | cons x l ih =>
    cases hx : f x with
    | none =>
      rw [List.filterMap_cons, hx, List.filter_cons]
      simp [hx, ih]
    | some y =>
      rw [List.filterMap_cons, hx, List.filter_cons]
      by_cases hyd : y = d
      · subst hyd
        simp [List.count_cons, hx, ih]
      · simp [List.count_cons, hx, ih, hyd, Ne.symm hyd]

lemma parse_signed_eq_filterMap (output : String) (i : Nat)
    (h : signed_status_index output = some i) :
    parse_signed_driver_output output = (signed_data_rows output).filterMap (rowExtract i) := by
  unfold signed_status_index at h
  unfold parse_signed_driver_output signed_data_rows
  by_cases hs : output = ""
  · rw [if_pos hs] at h
    cases h
  · rw [if_neg hs] at h
    rw [if_neg hs, if_neg hs]
    cases hsplit : splitCh '\n' (trimChars output.data) with
    | nil => rw [hsplit] at h; cases h
    | cons l0 rest0 =>
      cases rest0 with
      | nil => rw [hsplit] at h; cases h
      | cons l1 rest =>
        rw [hsplit] at h
        dsimp only at h ⊢
        rw [h]

lemma parse_signed_none (output : String)
    (h : signed_status_index output = none) :
    parse_signed_driver_output output = [] := by
  unfold signed_status_index at h
  unfold parse_signed_driver_output
  by_cases hs : output = ""
  · rw [if_pos hs]
  · rw [if_neg hs] at h
    rw [if_neg hs]
    cases hsplit : splitCh '\n' (trimChars output.data) with
    | nil => rfl
    | cons l0 rest0 =>
      cases rest0 with
      | nil => rfl
      | cons l1 rest =>
        rw [hsplit] at h
        dsimp only at h ⊢
        rw [h]

/-- C5: the stopped result is an order-preserving sublist of the full
parsed sequence, the unsigned-name result is an order-preserving sublist of
the cleaned first fields of the source data rows, the stopped filter
distributes over concatenation, the unsigned result is exactly the
row-by-row extraction over the source data rows (empty when the parser
gives up before the rows), and each device name occurs in the unsigned
result once per source data row that produces it — so neither sequence is
deduplicated or re-sorted. -/
theorem c5_order_preservation :
    (∀ all_drivers : List DriverRecord, (stopped_drivers all_drivers).Sublist all_drivers) ∧
    (∀ output : String, (parse_signed_driver_output output).Sublist (source_row_names output)) ∧
    (∀ l1 l2 : List DriverRecord,
      stopped_drivers (l1 ++ l2) = stopped_drivers l1 ++ stopped_drivers l2) ∧
    (∀ (output : String) (i : Nat), signed_status_index output = some i →
      parse_signed_driver_output output = (signed_data_rows output).filterMap (rowExtract i)) ∧
    (∀ output : String, signed_status_index output = none →
      parse_signed_driver_output output = []) ∧
    (∀ (output : String) (i : Nat) (d : String), signed_status_index output = some i →
      (parse_signed_driver_output output).count d
        = ((signed_data_rows output).filter (fun line => rowExtract i line = some d)).length) := by
  refine ⟨fun all => List.filter_sublist _, ?_, fun l1 l2 => List.filter_append _ _,
    fun output i h => parse_signed_eq_filterMap output i h,
    fun output h => parse_signed_none output h,
    fun output i d h => by rw [parse_signed_eq_filterMap output i h, count_filterMap]⟩
  intro output
  unfold parse_signed_driver_output source_row_names
  by_cases h : output = ""
  · simp [h]
  · rw [if_neg h, if_neg h]
    cases hsplit : splitCh '\n' (trimChars output.data) with
    | nil => simp
    | cons l0 rest0 =>
      cases rest0 with
      | nil => simp
      | cons l1 rest =>
        dsimp only
        cases hidx : resolveSignedIndex ((splitCh ',' l0).map cleanField) with
        | none => simp [hidx]
        | some i =>
          simp only [hidx]
          exact filterMap_sublist_map _ _ _
            (fun line d hline => rowExtract_eq_some_name i line d hline)

/-- C5 witness: two identical matching data rows produce the same device
name twice — the multiplicity equality holds and nothing is deduplicated. -/
theorem c5_witness :
    (parse_signed_driver_output "Name,IsSigned\ndev,false\ndev,false").count "dev"
        = ((signed_data_rows "Name,IsSigned\ndev,false\ndev,false").filter
            (fun line => rowExtract 1 line = some "dev")).length
    ∧ parse_signed_driver_output "Name,IsSigned\ndev,false\ndev,false" = ["dev", "dev"] :=
  ⟨c5_order_preservation.2.2.2.2.2 "Name,IsSigned\ndev,false\ndev,false" 1 "dev" (by decide),
    by decide⟩

/-- C8 counterexample: the write path of `generate_report` is the constant
`report.txt` whatever the caller passes; the caller cannot specify the
location. -/
theorem c8_counterexample :
    (generate_report [] [] "2024-01-01 00:00:00").path = "report.txt" ∧
    (generate_report [[("ModuleName", "ACPI"), ("State", "Stopped")]] ["dev1"]
        "2024-06-30 12:00:00").path = "report.txt" :=
  ⟨rfl, rfl⟩

/-- C8 amended: `generate_report` always writes (creating or overwriting)
the fixed relative path `report.txt`; the path does not depend on any
caller input. -/
theorem c8_amended_fixed_path (stopped : List DriverRecord) (unsigned : List String)
    (now : String) : (generate_report stopped unsigned now).path = "report.txt" :=
  rfl

lemma mem_parse_ne_nil (s : String) (r : DriverRecord)
    (h : r ∈ parse_driver_v_output s) : r ≠ [] := by
  unfold parse_driver_v_output at h
  by_cases hs : s = ""
  · rw [if_pos hs] at h
    cases h
  · rw [if_neg hs] at h
    obtain ⟨b, -, hb⟩ := List.mem_filterMap.mp h
    by_cases hpb : parseBlock b = []
    · simp [blockToRecord, hpb] at hb
    · simp only [blockToRecord, if_neg hpb, Option.some_inj] at hb
      exact hb ▸ hpb

/-- C2: the number of records returned by `parse_driver_v_output` equals
the number of blocks of the stripped input that contain at least one
colon-bearing line; empty input yields the empty sequence; and no returned
record is empty, so colon-free blocks are dropped rather than emitted. -/
theorem c2_record_count (output : String) :
    (parse_driver_v_output output).length
        = ((splitNN (trimChars output.data)).filter hasColonLine).length
      ∧ parse_driver_v_output "" = []
      ∧ ∀ r ∈ parse_driver_v_output output, r ≠ [] := by
  refine ⟨?_, rfl, fun r hr => mem_parse_ne_nil output r hr⟩
  by_cases hs : output = ""
  · subst hs
    decide
  · unfold parse_driver_v_output
    rw [if_neg hs, length_filterMap_eq_length_filter]
    congr 1
    apply List.filter_congr
    intro b _
    exact blockToRecord_isSome b

/-- C2 witness: a concrete input with two colon-bearing blocks and one
colon-free block yields exactly two records, and a returned record is
nonempty. -/
theorem c2_witness :
    (parse_driver_v_output "A:1\n\nnocolon\n\nB: 2").length
        = ((splitNN (trimChars ("A:1\n\nnocolon\n\nB: 2" : String).data)).filter
            hasColonLine).length
      ∧ (parse_driver_v_output "A:1\n\nnocolon\n\nB: 2").length = 2
      ∧ [("A", "1")] ≠ ([] : DriverRecord) :=
  ⟨(c2_record_count "A:1\n\nnocolon\n\nB: 2").1, by decide,
    (c2_record_count "A:1\n\nnocolon\n\nB: 2").2.2 [("A", "1")] (by decide)⟩

/-- C6: a line contributes a field exactly when it contains a colon; the
split is at the first colon (the key part is colon-free and rebuilding key,
colon, value gives back the line); and after processing a block whose last
line carries key `k`, the record binds the normalized trimmed key to that
last trimmed value, overwriting anything earlier lines wrote (last write
wins). -/
theorem c6_line_rule_and_last_write_wins :
    (∀ l : List Char, (splitFirst ':' l).isSome = l.contains ':')
    ∧ (∀ l k v : List Char, splitFirst ':' l = some (k, v) → k ++ ':' :: v = l ∧ ':' ∉ k)
    ∧ (∀ (lines1 : List (List Char)) (d : DriverRecord) (l k v : List Char),
        splitFirst ':' l = some (k, v) →
        dictGet ((lines1 ++ [l]).foldl processLine d)
            (header_map (String.mk (trimChars k))) = some (String.mk (trimChars v))) := by
  refine ⟨splitFirst_isSome ':', splitFirst_eq_some ':', ?_⟩
  intro lines1 d l k v hl
  rw [List.foldl_append]
  simp only [List.foldl_cons, List.foldl_nil]
  simp only [processLine, hl]
  exact dictGet_dictInsert_same _ _ _

/-- C6 witness: a Spanish `Estado` line followed by an English `State` line
normalizes to the same key `State`, and the later value wins. -/
theorem c6_witness :
    dictGet ((["Estado: Detenido".data] ++ ["State: Stopped".data]).foldl processLine [])
        (header_map (String.mk (trimChars ("State" : String).data)))
      = some (String.mk (trimChars (" Stopped" : String).data))
    ∧ String.mk (trimChars (" Stopped" : String).data) = "Stopped"
    ∧ header_map (String.mk (trimChars ("State" : String).data)) = "State" :=
  ⟨c6_line_rule_and_last_write_wins.2.2 ["Estado: Detenido".data] [] "State: Stopped".data
      ("State" : String).data (" Stopped" : String).data (by decide), by decide, by decide⟩

set_option maxRecDepth 4000 in
/-- C7: both parsers return the empty sequence on empty command output, and
the renderer applied to two empty sequences still produces the full report,
with zero counts in the summary and the two placeholder lines. -/
theorem c7_empty_inputs_report (now : String) :
    parse_driver_v_output "" = [] ∧ parse_signed_driver_output "" = [] ∧
    generate_report_content [] [] now =
      "Driver Analysis Report\n======================\nGenerated on: " ++
        (now ++ "\n\n--- Summary ---\nFound 0 stopped drivers.\nFound 0 unsigned drivers.\nNote: Not all stopped or unsigned drivers indicate a problem. This report is for informational purposes.\n\n--- Stopped Drivers ---\nNo stopped drivers found.\n\n--- Unsigned Drivers ---\nNo unsigned drivers found.\n\n--- Recommendations ---\n1. Check Windows Update for the latest official drivers.\n2. For specific hardware (e.g., graphics cards), visit the manufacturer\x27s official website (NVIDIA, AMD, Intel).\n3. Do NOT download drivers from third-party websites.\n") := by
  refine ⟨rfl, rfl, ?_⟩
  show "Driver Analysis Report\n======================\nGenerated on: " ++
    (now ++ reportTail [] []) = _
  rw [(by decide :
    reportTail [] [] = "\n\n--- Summary ---\nFound 0 stopped drivers.\nFound 0 unsigned drivers.\nNote: Not all stopped or unsigned drivers indicate a problem. This report is for informational purposes.\n\n--- Stopped Drivers ---\nNo stopped drivers found.\n\n--- Unsigned Drivers ---\nNo unsigned drivers found.\n\n--- Recommendations ---\n1. Check Windows Update for the latest official drivers.\n2. For specific hardware (e.g., graphics cards), visit the manufacturer\x27s official website (NVIDIA, AMD, Intel).\n3. Do NOT download drivers from third-party websites.\n")]

lemma not_quote_mem_cleanField (x : List Char) : '"' ∉ (cleanField x).data := by
  intro hmem
  simp only [cleanField] at hmem
  have := List.mem_filter.mp hmem
  simp at this

/-- C9 amended: every device name returned by `parse_signed_driver_output`
contains no double-quote character (all double quotes are removed,
including interior ones); leading or trailing whitespace can remain,
because fields are whitespace-stripped before the quotes are removed. -/
theorem c9_amended_no_quotes (output : String) (d : String)
    (h : d ∈ parse_signed_driver_output output) : '"' ∉ d.data := by
  unfold parse_signed_driver_output at h
  by_cases hs : output = ""
  · rw [if_pos hs] at h
    cases h
  · rw [if_neg hs] at h
    cases hsplit : splitCh '\n' (trimChars output.data) with
    | nil => rw [hsplit] at h; cases h
    | cons l0 rest0 =>
      cases rest0 with
      | nil => rw [hsplit] at h; cases h
      | cons l1 rest =>
        rw [hsplit] at h
        cases hidx : resolveSignedIndex ((splitCh ',' l0).map cleanField) with
        | none => simp [hidx] at h
        | some i =>
          simp only [hidx] at h
          obtain ⟨line, -, hline⟩ := List.mem_filterMap.mp h
          rw [rowExtract_eq_some_name i line d hline]
          exact not_quote_mem_cleanField _

/-- C9 witness: a field with an interior double quote is returned with
every quote removed. -/
theorem c9_witness :
    ('"' ∉ ("dev1" : String).data)
    ∧ parse_signed_driver_output "Name,IsSigned\n\"de\"v1\",false" = ["dev1"] :=
  ⟨c9_amended_no_quotes "Name,IsSigned\n\"de\"v1\",false" "dev1" (by decide), by decide⟩

/-- C9 counterexample: a quoted field with whitespace inside the quotes
keeps that whitespace in the returned device name, so the claim that names
carry no leading or trailing whitespace fails. -/
theorem c9_counterexample :
    parse_signed_driver_output "Name,IsSigned\n\" dev \",false" = [" dev "]
    ∧ trimChars ((" dev " : String).data) ≠ (" dev " : String).data :=
  ⟨by decide, by decide⟩

lemma rowExtract_eq_some_iff (i : Nat) (line : List Char) (d : String) :
    rowExtract i line = some d ↔
      (trimChars line ≠ [] ∧ ∃ status,
        ((splitCh ',' line).map cleanField)[i]? = some status
        ∧ pyLower status = "false"
        ∧ ((splitCh ',' line).map cleanField)[0]? = some d) := by
  unfold rowExtract
  by_cases ht : trimChars line = []
  · simp [ht]
  · rw [if_neg ht]
    cases hg : ((splitCh ',' line).map cleanField)[i]? with
    | none => simp [hg, ht]
    | some status =>
      simp only [hg]
      by_cases hs : pyLower status = "false"
      · rw [if_pos hs]
        simp [ht, hs]
      · rw [if_neg hs]
        simp only [ht, not_false_iff, true_and, Option.some_inj]
        constructor
        · intro h
          cases h
        · rintro ⟨-, st, hstat, hlow, -⟩
          rw [← hstat] at hlow
          exact absurd hlow hs

/-- C3 counterexample: with the quoted CSV field made of a double quote,
space, false, space, double quote, the normalization the claim describes
(strip the surrounding quotes and the whitespace, lower-case) yields the
token false, yet the parser excludes the row, because the code strips
whitespace before removing quotes. -/
theorem c3_counterexample :
    parse_signed_driver_output "Name,IsSigned\n\"dev1\",\" false \"" = []
    ∧ pyLower (String.mk (trimChars
        ((("\" false \"" : String).data).filter (fun c => c ≠ '"')))) = "false" :=
  ⟨by decide, by decide⟩

/-- C3 amended: with a recognized `IsSigned` header, a data row contributes
its cleaned first field exactly when the row is non-blank and its
signed-status field — whitespace-stripped first, then with every double
quote removed, then lower-cased — equals the token false. Quoted `False`
and `FALSE` match after this normalization; a quoted field with whitespace
inside the quotes does not. -/
theorem c3_amended (output : String) (l0 : List Char) (rows : List (List Char))
    (hout : output ≠ "")
    (hsplit : splitCh '\n' (trimChars output.data) = l0 :: rows)
    (hsig : ((splitCh ',' l0).map cleanField).contains "IsSigned" = true) :
    (parse_signed_driver_output output
        = rows.filterMap (rowExtract (pyIndexOf "IsSigned" ((splitCh ',' l0).map cleanField))))
    ∧ (∀ d, d ∈ parse_signed_driver_output output ↔
        ∃ line ∈ rows, trimChars line ≠ [] ∧
          ∃ status,
            ((splitCh ',' line).map cleanField)[pyIndexOf "IsSigned"
                ((splitCh ',' l0).map cleanField)]? = some status
            ∧ pyLower status = "false"
            ∧ ((splitCh ',' line).map cleanField)[0]? = some d)
    ∧ pyLower (cleanField (("\"False\"" : String).data)) = "false"
    ∧ pyLower (cleanField (("\"FALSE\"" : String).data)) = "false"
    ∧ pyLower (cleanField (("\" false \"" : String).data)) ≠ "false" := by
  have hres : resolveSignedIndex ((splitCh ',' l0).map cleanField)
      = some (pyIndexOf "IsSigned" ((splitCh ',' l0).map cleanField)) := by
    unfold resolveSignedIndex
    rw [hsig]
    simp
  have hmain : parse_signed_driver_output output
      = rows.filterMap (rowExtract (pyIndexOf "IsSigned" ((splitCh ',' l0).map cleanField))) := by
    unfold parse_signed_driver_output
    rw [if_neg hout, hsplit]
    cases rows with
    | nil => rfl
    | cons l1 rest =>
      dsimp only
      rw [hres]
  refine ⟨hmain, fun d => ?_, by decide, by decide, by decide⟩
  rw [hmain, List.mem_filterMap]
  constructor
  · rintro ⟨line, hmem, hrow⟩
    obtain ⟨h1, h2⟩ := (rowExtract_eq_some_iff _ line d).mp hrow
    exact ⟨line, hmem, h1, h2⟩
  · rintro ⟨line, hmem, h1, h2⟩
    exact ⟨line, hmem, (rowExtract_eq_some_iff _ line d).mpr ⟨h1, h2⟩⟩

/-- C3 witness: the standard English header with a quoted `False` field
selects exactly the first device. -/
theorem c3_witness :
    parse_signed_driver_output "Name,IsSigned\n\"dev1\",\"False\"\n\"dev2\",\"True\"" =
      ["dev1"] := by
  have h := (c3_amended "Name,IsSigned\n\"dev1\",\"False\"\n\"dev2\",\"True\""
      (("Name,IsSigned" : String).data)
      [("\"dev1\",\"False\"" : String).data, ("\"dev2\",\"True\"" : String).data]
      (by decide) (by decide) (by decide)).1
  rw [h]
  decide

/-- C4: when no recognized signed-status header label matches, the parser
falls back to column index 1 and continues non-fatally; when in that case
the header has fewer than two columns, it returns the empty sequence
instead of raising. -/
theorem c4_header_fallback (output : String) (l0 : List Char) (rows : List (List Char))
    (hout : output ≠ "")
    (hsplit : splitCh '\n' (trimChars output.data) = l0 :: rows)
    (hno1 : ((splitCh ',' l0).map cleanField).contains "IsSigned" = false)
    (hno2 : ((splitCh ',' l0).map cleanField).contains "Está firmado" = false) :
    (1 < ((splitCh ',' l0).map cleanField).length →
      parse_signed_driver_output output = rows.filterMap (rowExtract 1))
    ∧ (¬ 1 < ((splitCh ',' l0).map cleanField).length →
      parse_signed_driver_output output = []) := by
  have hres : resolveSignedIndex ((splitCh ',' l0).map cleanField)
      = if 1 < ((splitCh ',' l0).map cleanField).length then some 1 else none := by
    unfold resolveSignedIndex
    rw [hno1, hno2]
    simp
  constructor
  · intro hlen
    unfold parse_signed_driver_output
    rw [if_neg hout, hsplit]
    cases rows with
    | nil => rfl
    | cons l1 rest =>
      dsimp only
      rw [hres, if_pos hlen]
  · intro hlen
    unfold parse_signed_driver_output
    rw [if_neg hout, hsplit]
    cases rows with
    | nil => rfl
    | cons l1 rest =>
      dsimp only
      rw [hres, if_neg hlen]

/-- C4 witness: an unrecognized two-column header falls back to column 1
and still finds the unsigned device. -/
theorem c4_witness :
    parse_signed_driver_output "ColA,ColB\n\"d1\",\"false\"\n\"d2\",\"true\"" = ["d1"] := by
  have h := (c4_header_fallback "ColA,ColB\n\"d1\",\"false\"\n\"d2\",\"true\""
      (("ColA,ColB" : String).data)
      [("\"d1\",\"false\"" : String).data, ("\"d2\",\"true\"" : String).data]
      (by decide) (by decide) (by decide) (by decide)).1 (by decide)
  rw [h]
  decide

lemma dropWhile_append_left (p : Char → Bool) (l1 l2 : List Char)
    (h : l1.dropWhile p ≠ []) : (l1 ++ l2).dropWhile p = l1.dropWhile p ++ l2 := by
  induction l1 with
  | nil => exact absurd rfl h
  | cons c l1 ih =>
    by_cases hc : p c
    · rw [List.cons_append, List.dropWhile_cons_of_pos hc, List.dropWhile_cons_of_pos hc] at *
      exact ih h
    · rw [List.cons_append, List.dropWhile_cons_of_neg (by simpa using hc),
        List.dropWhile_cons_of_neg (by simpa using hc), List.cons_append]

lemma dropWhile_ne_nil_of_mem (p : Char → Bool) (l : List Char) (x : Char)
    (hx : x ∈ l) (hpx : p x = false) : l.dropWhile p ≠ [] := by
  induction l with
  | nil => cases hx
  | cons c l ih =>
    by_cases hc : p c
    · rw [List.dropWhile_cons_of_pos hc]
      rcases List.mem_cons.mp hx with h | h
      · rw [h] at hpx
        rw [hpx] at hc
        cases hc
      · exact ih h
    · rw [List.dropWhile_cons_of_neg (by simpa using hc)]
      simp

lemma trimChars_append3 (x m y : List Char)
    (hx : x.dropWhile Char.isWhitespace ≠ [])
    (hy : y.reverse.dropWhile Char.isWhitespace ≠ []) :
    trimChars (x ++ (m ++ y))
      = x.dropWhile Char.isWhitespace ++ (m ++ (y.reverse.dropWhile Char.isWhitespace).reverse) := by
  unfold trimChars
  rw [dropWhile_append_left _ x (m ++ y) hx]
  rw [List.reverse_append, List.reverse_append, List.append_assoc]
  rw [dropWhile_append_left _ y.reverse _ hy]
  simp [List.append_assoc]

lemma dropWhile_concat_last (p : Char → Bool) (a : List Char) (ca : Char)
    (h : p ca = false) : ∃ t, (a ++ [ca]).dropWhile p = t ++ [ca] := by
  induction a with
  | nil =>
    refine ⟨[], ?_⟩
    simp [List.dropWhile_cons, h]
  | cons c a ih =>
    by_cases hc : p c
    · rw [List.cons_append, List.dropWhile_cons_of_pos hc]
      exact ih
    · exact ⟨c :: a, by rw [List.cons_append, List.dropWhile_cons_of_neg (by simpa using hc)]⟩

lemma getLast_concat_ne_nl (x t : List Char) (ca : Char) (hx : x = t ++ [ca])
    (hca : ca ≠ '\n') : x.getLast? ≠ some '\n' := by
  rw [hx, List.getLast?_concat]
  intro h
  exact hca (Option.some_inj.mp h)

lemma splitNN_nil_ : splitNN [] = [[]] := rfl

lemma splitNN_single (c : Char) : splitNN [c] = [[c]] := rfl

lemma splitNN_sep (rest : List Char) : splitNN ('\n' :: '\n' :: rest) = [] :: splitNN rest := by
  simp [splitNN]

lemma splitNN_cons_cons (c1 c2 : Char) (rest : List Char) (h : ¬(c1 = '\n' ∧ c2 = '\n'))
    (t : List Char) (ts : List (List Char)) (hts : splitNN (c2 :: rest) = t :: ts) :
    splitNN (c1 :: c2 :: rest) = (c1 :: t) :: ts := by
  rw [splitNN, if_neg h, hts]

lemma splitNN_append_sep : ∀ (x r : List Char), x.getLast? ≠ some '\n' →
    splitNN (x ++ '\n' :: '\n' :: r) = splitNN x ++ splitNN r
  | [], r, _ => by
    rw [List.nil_append, splitNN_sep, splitNN_nil_]
    rfl
  | [c], r, h => by
    have hc : c ≠ '\n' := by
      intro hc
      exact h (by rw [hc]; rfl)
    have hpair : ¬(c = '\n' ∧ '\n' = '\n') := fun hp => hc hp.1
    rw [List.cons_append, List.nil_append,
      splitNN_cons_cons c '\n' ('\n' :: r) hpair _ _ (splitNN_sep r), splitNN_single]
    rfl
  | c1 :: c2 :: x'', r, h => by
    have hlast : (c2 :: x'').getLast? ≠ some '\n' := by
      have h2 := h
      rw [List.getLast?_cons_cons] at h2
      exact h2
    by_cases hp : c1 = '\n' ∧ c2 = '\n'
    · have hx'' : x'' ≠ [] := by
        intro hx
        subst hx
        exact h (by rw [hp.1, hp.2]; rfl)
      have hlast'' : x''.getLast? ≠ some '\n' := by
        cases x'' with
        | nil => exact absurd rfl hx''
        | cons d x3 =>
          have h2 := h
          rw [List.getLast?_cons_cons, List.getLast?_cons_cons] at h2
          exact h2
      rw [hp.1, hp.2, List.cons_append, List.cons_append, splitNN_sep, splitNN_sep,
        splitNN_append_sep x'' r hlast'']
      rfl
    · obtain ⟨t, ts, hts⟩ : ∃ t ts, splitNN (c2 :: x'') = t :: ts := by
        cases hsp : splitNN (c2 :: x'') with
        | nil => exact absurd hsp (splitNN_ne_nil _)
        | cons t ts => exact ⟨t, ts, rfl⟩
      have hrec := splitNN_append_sep (c2 :: x'') r hlast
      rw [hts] at hrec
      rw [List.cons_append, List.cons_append,
        splitNN_cons_cons c1 c2 (x'' ++ '\n' :: '\n' :: r) hp _ _
          (by rw [← List.cons_append]; exact hrec),
        splitNN_cons_cons c1 c2 x'' hp t ts hts]
      rfl


lemma trimChars_cons_nl (t : List Char) : trimChars ('\n' :: t) = trimChars t := by
  unfold trimChars
  rw [List.dropWhile_cons_of_pos (by decide)]

lemma blockToRecord_cons_nl (t : List Char) :
    blockToRecord ('\n' :: t) = blockToRecord t := by
  unfold blockToRecord parseBlock
  rw [trimChars_cons_nl]

lemma blockToRecord_nil_none : blockToRecord [] = none := by decide

lemma filterMap_splitNN_nlRep : ∀ (t : Nat) (cb : Char) (b : List Char), cb ≠ '\n' →
    (splitNN (nlRep t ++ cb :: b)).filterMap blockToRecord
      = (splitNN (cb :: b)).filterMap blockToRecord
  | 0, cb, b, _ => by
    rw [show nlRep 0 = [] from rfl, List.nil_append]
  | 1, cb, b, hcb => by
    have hpair : ¬('\n' = '\n' ∧ cb = '\n') := fun hp => hcb hp.2
    obtain ⟨t0, ts, hts⟩ : ∃ t0 ts, splitNN (cb :: b) = t0 :: ts := by
      cases hsp : splitNN (cb :: b) with
      | nil => exact absurd hsp (splitNN_ne_nil _)
      | cons t0 ts => exact ⟨t0, ts, rfl⟩
    rw [show nlRep 1 ++ cb :: b = '\n' :: cb :: b from rfl]
    rw [splitNN_cons_cons '\n' cb b hpair t0 ts hts, hts]
    rw [List.filterMap_cons, List.filterMap_cons, blockToRecord_cons_nl]
  | t + 2, cb, b, hcb => by
    rw [show nlRep (t + 2) ++ cb :: b = '\n' :: '\n' :: (nlRep t ++ cb :: b) from by
      simp [nlRep, List.replicate_succ]]
    rw [splitNN_sep, List.filterMap_cons, blockToRecord_nil_none]
    exact filterMap_splitNN_nlRep t cb b hcb

lemma parse_blank_separated_shape (a : List Char) (ca cb : Char) (b : List Char) (j : Nat)
    (hca : ca.isWhitespace = false) (hcb : cb.isWhitespace = false) (hj : 2 ≤ j) :
    parse_driver_v_output (String.mk ((a ++ [ca]) ++ (nlRep j ++ (cb :: b))))
      = (splitNN ((a ++ [ca]).dropWhile Char.isWhitespace)).filterMap blockToRecord
        ++ (splitNN (((cb :: b).reverse.dropWhile Char.isWhitespace).reverse)).filterMap
            blockToRecord := by
  have hne : String.mk ((a ++ [ca]) ++ (nlRep j ++ (cb :: b))) ≠ "" := by
    intro hcontra
    have hd := congrArg String.data hcontra
    simp at hd
  unfold parse_driver_v_output
  rw [if_neg hne]
  have hx : (a ++ [ca]).dropWhile Char.isWhitespace ≠ [] :=
    dropWhile_ne_nil_of_mem _ _ ca (by simp) hca
  have hy : (cb :: b).reverse.dropWhile Char.isWhitespace ≠ [] :=
    dropWhile_ne_nil_of_mem _ _ cb (by simp) hcb
  have hdata : (String.mk ((a ++ [ca]) ++ (nlRep j ++ (cb :: b)))).data
      = (a ++ [ca]) ++ (nlRep j ++ (cb :: b)) := rfl
  rw [hdata, trimChars_append3 _ _ _ hx hy]
  obtain ⟨j2, rfl⟩ : ∃ j2, j = j2 + 2 := ⟨j - 2, by omega⟩
  obtain ⟨t, ht⟩ := dropWhile_concat_last Char.isWhitespace a ca hca
  have hXlast : ((a ++ [ca]).dropWhile Char.isWhitespace).getLast? ≠ some '\n' :=
    getLast_concat_ne_nl _ t ca ht (fun hc => absurd (hc ▸ hca) (by decide))
  rw [show nlRep (j2 + 2) ++ ((cb :: b).reverse.dropWhile Char.isWhitespace).reverse
      = '\n' :: '\n' :: (nlRep j2 ++ ((cb :: b).reverse.dropWhile Char.isWhitespace).reverse)
    from by simp [nlRep, List.replicate_succ]]
  rw [splitNN_append_sep _ _ hXlast]
  rw [List.filterMap_append]
  congr 1
  obtain ⟨t2, ht2⟩ := dropWhile_concat_last Char.isWhitespace b.reverse cb hcb
  have hY : ((cb :: b).reverse.dropWhile Char.isWhitespace).reverse = cb :: t2.reverse := by
    rw [List.reverse_cons, ht2]
    simp
  rw [hY]
  exact filterMap_splitNN_nlRep j2 cb t2.reverse (fun hc => absurd (hc ▸ hcb) (by decide))

/-- C10: inside a text whose left part ends with a non-whitespace character
and whose right part starts with one, widening the single blank-line block
separator (two newline characters) to any larger run of newline characters
(two or more blank lines) leaves the parsed record sequence unchanged, and
no parse of any input ever emits an empty record. -/
theorem c10_blank_line_insensitive (a : List Char) (ca cb : Char) (b : List Char) (k : Nat)
    (hca : ca.isWhitespace = false) (hcb : cb.isWhitespace = false) :
    parse_driver_v_output (String.mk ((a ++ [ca]) ++ nlRep (k + 3) ++ (cb :: b)))
      = parse_driver_v_output (String.mk ((a ++ [ca]) ++ nlRep 2 ++ (cb :: b)))
    ∧ (∀ (s : String) (r : DriverRecord), r ∈ parse_driver_v_output s → r ≠ []) := by
  refine ⟨?_, fun s r hr => mem_parse_ne_nil s r hr⟩
  rw [show (a ++ [ca]) ++ nlRep (k + 3) ++ (cb :: b)
      = (a ++ [ca]) ++ (nlRep (k + 3) ++ (cb :: b)) from List.append_assoc _ _ _]
  rw [show (a ++ [ca]) ++ nlRep 2 ++ (cb :: b)
      = (a ++ [ca]) ++ (nlRep 2 ++ (cb :: b)) from List.append_assoc _ _ _]
  rw [parse_blank_separated_shape a ca cb b (k + 3) hca hcb (by omega)]
  rw [parse_blank_separated_shape a ca cb b 2 hca hcb (by omega)]

/-- C10 witness: one concrete record pair separated by two blank lines
parses identically to the single-blank-line layout, and evaluates to the
two expected records. -/
theorem c10_witness :
    parse_driver_v_output (String.mk ((("A:" : String).data ++ ['1']) ++ nlRep 3 ++
        ('B' :: (":2" : String).data)))
      = parse_driver_v_output (String.mk ((("A:" : String).data ++ ['1']) ++ nlRep 2 ++
        ('B' :: (":2" : String).data)))
    ∧ parse_driver_v_output (String.mk ((("A:" : String).data ++ ['1']) ++ nlRep 3 ++
        ('B' :: (":2" : String).data))) = [[("A", "1")], [("B", "2")]] :=
  ⟨(c10_blank_line_insensitive (("A:" : String).data) '1' 'B' ((":2" : String).data) 0
      (by decide) (by decide)).1, by decide⟩
